import Mathlib

/-!
Verification development for the network driver (jakobod/epoll-benchmarks).

Shallow embedding of the socket handle and its scope guard, the receive policy,
the binary serializer, the multiplexer helpers `tcp_connect`, `write_to_pipe` and
`num_socket_managers`, the name of an operation and the non-blocking switch, followed by
the theorems that settle the specification's claims.

Conventions:
* bytes are natural numbers below 256, a byte buffer is a `List Nat`;
* machine integers are `Nat`/`Int`, reduced modulo `2 ^ w` where a width matters;
* system calls are recorded in an explicit trace carried by the kernel state.
-/

set_option autoImplicit false
set_option maxRecDepth 4096

/-! ## Sockets and the kernel (src/src/net/socket.cpp) -/

namespace net

/-- Modelled from the spec: the constant `invalid_socket_id` of net/socket.hpp, a header
that is not among the sources. The spec names a sentinel invalid handle; its value is the
`invalid_fd = -1` that `socket_guard::release` stores into a released guard. -/
def invalid_socket_id : Int := -1

/-- Modelled from the spec: the type `net::socket` of net/socket.hpp (not among the
sources): an opaque integer handle, compared by its identifier. -/
structure socket where
  id : Int
deriving DecidableEq, Repr

/-- Modelled from the spec: the sentinel `net::invalid_socket` of net/socket.hpp. -/
def invalid_socket : socket := ⟨invalid_socket_id⟩

/-- What the kernel state records: every call of `net::close` and every `::close`
system call, in the order they happen. -/
inductive event where
  | net_close (hdl : socket)
  | sys_close (fd : Int)
deriving DecidableEq, Repr

/-- The part of the operating system the socket guard touches: the set of open
descriptors and the trace of calls. -/
structure kernel where
  open_fds : List Int
  trace : List event
deriving DecidableEq, Repr

/-- The system call `::close(fd)`: the descriptor is no longer open, the call is traced. -/
def sys_close (fd : Int) (k : kernel) : kernel :=
  { open_fds := k.open_fds.filter (fun x => x ≠ fd),
    trace := k.trace ++ [event.sys_close fd] }

/-- The function `net::close(socket hdl)` of socket.cpp:
`if (hdl != invalid_socket) ::close(hdl.id);`. Entering the function is recorded in the
trace, so that a caller can be seen to have called it. -/
def close (hdl : socket) (k : kernel) : kernel :=
  let k1 : kernel := { k with trace := k.trace ++ [event.net_close hdl] }
  if hdl ≠ invalid_socket then sys_close hdl.id k1 else k1

end net

/-! ## The socket guard (src/header/detail/socket_guard.hpp) -/

/-- The constant `invalid_fd` of socket_guard.hpp. -/
def invalid_fd : Int := -1

namespace detail

/-- The class `socket_guard<Socket>`: it holds one socket. -/
structure socket_guard where
  sock_ : net.socket
deriving DecidableEq, Repr

/-- The function `make_socket_guard(sock)`, that is the constructor `socket_guard(sock)`. -/
def make_socket_guard (sock : net.socket) : socket_guard := ⟨sock⟩

namespace socket_guard

/-- The destructor `~socket_guard()`:
`if (sock_ != net::invalid_socket) net::close(sock_);`. -/
def destroy (g : socket_guard) (k : net.kernel) : net.kernel :=
  if g.sock_ ≠ net.invalid_socket then net.close g.sock_ k else k

/-- The member `release()`: returns the held socket and stores `invalid_fd` as the id of
the guard's socket. The result is the returned socket and the guard afterwards. -/
def release (g : socket_guard) : net.socket × socket_guard :=
  let sock := g.sock_
  (sock, { g with sock_ := { g.sock_ with id := invalid_fd } })

end socket_guard

end detail

/-! ## The receive policy (src/header/net/receive_policy.hpp) -/

namespace net

/-- The struct `receive_policy`: two `uint32_t` fields. -/
structure receive_policy where
  min_size : Nat
  max_size : Nat
deriving DecidableEq, Repr

namespace receive_policy

/-- The friend `operator==`: both fields are equal. -/
def eq (lhs rhs : receive_policy) : Bool :=
  (lhs.min_size == rhs.min_size) && (lhs.max_size == rhs.max_size)

/-- The function `between(min_size, max_size)`: returns `{min_size, max_size}`. -/
def between (min_size max_size : Nat) : receive_policy := ⟨min_size, max_size⟩

/-- The function `exactly(size)`: returns `{size, size}`. -/
def exactly (size : Nat) : receive_policy := ⟨size, size⟩

/-- The function `up_to(max_size)`: returns `{1, max_size}`. -/
def up_to (max_size : Nat) : receive_policy := ⟨1, max_size⟩

/-- The function `stop()`: returns `{0, 0}`. -/
def stop : receive_policy := ⟨0, 0⟩

/-- The invariant the data model states for a policy that is not `stop`:
`0 < min_size ≤ max_size`. -/
def valid (p : receive_policy) : Prop := 0 < p.min_size ∧ p.min_size ≤ p.max_size

instance (p : receive_policy) : Decidable p.valid := by
  unfold valid; infer_instance

end receive_policy

end net

/-! ## The binary serializer (src/src/util/binary_serializer.cpp) -/

namespace util

/-- The type `byte_buffer` (a `std::vector<std::byte>`): a list of bytes. -/
abbrev byte_buffer := List Nat

/-- The type `byte_span` (a `std::span<std::byte>`) as a window of the serializer's own
buffer: where it starts and how many bytes it has. -/
structure byte_span where
  offset : Nat
  size : Nat
deriving DecidableEq, Repr

namespace byte_span

/-- The conversion `byte_span{buf}`: the window over the whole buffer. -/
def of_buffer (buf : byte_buffer) : byte_span := ⟨0, buf.length⟩

/-- The member `last(count)` of `std::span`: the trailing `count` bytes. Asking for more
bytes than the span has is undefined behaviour, modelled as `none`. -/
def last (sp : byte_span) (count : Nat) : Option byte_span :=
  if count ≤ sp.size then some ⟨sp.offset + (sp.size - count), count⟩ else none

/-- The member `subspan(off)` of `std::span`: what is left after the first `off` bytes.
Skipping more bytes than the span has is undefined behaviour, modelled as `none`. -/
def subspan (sp : byte_span) (off : Nat) : Option byte_span :=
  if off ≤ sp.size then some ⟨sp.offset + off, sp.size - off⟩ else none

end byte_span

/-- The member `resize(n)` of `std::vector<std::byte>`: keeps the first `n` bytes and
fills up with zero bytes. -/
def resize (buf : byte_buffer) (n : Nat) : byte_buffer :=
  buf.take n ++ List.replicate (n - buf.length) 0

/-- The class `binary_serializer`: the buffer it writes to (held by reference in the
source, carried in the state here) and the window of it that is still free. -/
structure binary_serializer where
  buf_ : byte_buffer
  free_space_ : byte_span
deriving DecidableEq, Repr

namespace binary_serializer

/-- The constructor `binary_serializer(byte_buffer& buf)`: `buf_(buf), free_space_(buf_)`. -/
def init (buf : byte_buffer) : binary_serializer :=
  ⟨buf, byte_span.of_buffer buf⟩

/-- The member `realloc(required_free_space)` of binary_serializer.cpp, with its `size_t`
arithmetic on 64 bits:

* `missing = required_free_space - free_space_.size()` is taken only when the free space
  is smaller than required, so it does not wrap;
* `buf_.size() + missing` is reduced modulo `2 ^ 64`;
* `buf_.resize(...)` throws `std::length_error` when the new size exceeds the vector's
  `max_size()`, an implementation-defined limit that is a parameter here;
* `byte_span{buf_}.last(required_free_space)` is undefined behaviour when the resized
  buffer is shorter than `required_free_space`.

The result is `none` when `resize` throws or `last` is out of bounds. -/
def realloc (max_size : Nat) (bs : binary_serializer) (required_free_space : Nat) :
    Option binary_serializer :=
  if bs.free_space_.size < required_free_space then
    let missing := required_free_space - bs.free_space_.size
    let new_size := (bs.buf_.length + missing) % 2 ^ 64
    if new_size ≤ max_size then
      let buf := resize bs.buf_ new_size
      match (byte_span.of_buffer buf).last required_free_space with
      | some sp => some ⟨buf, sp⟩
      | none => none
    else
      none
  else
    some bs

end binary_serializer

end util

/-! ## The serializer's call operator (util/binary_serializer.hpp, not among the sources)

The header that declares the call operator and its `serialize` overloads is missing; only
the constructor and `realloc` (above) and the unit tests are present. The write path below
is modelled from the encoding rules of the spec. It reserves room as `realloc` does for
the sizes of objects in memory, where the `size_t` sum of `realloc` cannot wrap. -/

namespace util

/-- The fixed-width integer types the serializer accepts. -/
inductive int_type where
  | u8 | u16 | u32 | u64 | i8 | i16 | i32 | i64
deriving DecidableEq, Repr

namespace int_type

/-- The value of `sizeof(T)` in bytes. -/
def sizeof : int_type → Nat
  | u8 => 1 | u16 => 2 | u32 => 4 | u64 => 8
  | i8 => 1 | i16 => 2 | i32 => 4 | i64 => 8

/-- Whether the type is signed. -/
def signed : int_type → Bool
  | u8 => false | u16 => false | u32 => false | u64 => false
  | i8 => true | i16 => true | i32 => true | i64 => true

/-- The values of the type: `0 ≤ z < 2 ^ (8 * sizeof)` for an unsigned type and
`-2 ^ (8 * sizeof - 1) ≤ z < 2 ^ (8 * sizeof - 1)` for a signed one. -/
def in_range (t : int_type) (z : Int) : Prop :=
  if t.signed then -(2 : Int) ^ (8 * t.sizeof - 1) ≤ z ∧ z < (2 : Int) ^ (8 * t.sizeof - 1)
  else 0 ≤ z ∧ z < (2 : Int) ^ (8 * t.sizeof)

instance (t : int_type) (z : Int) : Decidable (t.in_range z) := by
  unfold in_range; infer_instance

end int_type

/-- The values a serializer call accepts. A floating point number is given by its
IEEE-754 bit pattern, a string by its bytes, a user composite by the fields its `visit`
function forwards. -/
inductive value where
  | int (t : int_type) (z : Int)
  | byte (b : Nat)
  | f32 (bits : Nat)
  | f64 (bits : Nat)
  | string (s : List Nat)
  | c_array (xs : List value)
  | std_array (xs : List value)
  | vector (xs : List value)
  | pair (a b : value)
  | tuple (xs : List value)
  | composite (fields : List value)

/-- The `w` bytes of the unsigned number `n`, least significant byte first. -/
def le_bytes : Nat → Nat → List Nat
  | 0, _ => []
  | w + 1, n => (n % 256) :: le_bytes w (n / 256)

/-- The number a list of bytes denotes when the least significant byte comes first. -/
def le_value : List Nat → Nat
  | [] => 0
  | b :: bs => b + 256 * le_value bs

/-- The object representation of the integer `z` in `w` bytes as an unsigned number:
`z` modulo `2 ^ (8 * w)`, which is two's complement for a negative `z`. -/
def to_unsigned (w : Nat) (z : Int) : Nat := (z % (2 : Int) ^ (8 * w)).toNat

/-- The bytes of an ASCII string literal. -/
def ascii (s : String) : List Nat := s.toList.map Char.toNat

/-- Copying `bytes` into `buf` from position `off` on. Writing past the end of the buffer
is undefined behaviour, modelled as `none`. -/
def copy_into (buf : byte_buffer) (off : Nat) (bytes : List Nat) : Option byte_buffer :=
  if off + bytes.length ≤ buf.length then
    some (buf.take off ++ bytes ++ buf.drop (off + bytes.length))
  else none

namespace binary_serializer

/-- Modelled from the spec: the reservation of room for a write in
util/binary_serializer.hpp, a header that is not among the sources: the call
`realloc(size)` with the size of an object in memory. Such a size added to the size of
the buffer neither wraps in `size_t` nor exceeds `max_size()`, and under that condition
this is `realloc` (lemma `reserve_eq_realloc`): with too little free space the buffer
grows by the missing bytes and its last `size` bytes become the free space. -/
def reserve (bs : binary_serializer) (size : Nat) : Option binary_serializer :=
  if bs.free_space_.size < size then
    let missing := size - bs.free_space_.size
    let buf := resize bs.buf_ (bs.buf_.length + missing)
    match (byte_span.of_buffer buf).last size with
    | some sp => some ⟨buf, sp⟩
    | none => none
  else
    some bs

/-- Modelled from the spec: the raw write of util/binary_serializer.hpp, a header that is
not among the sources. It reserves room with `reserve`, copies the bytes to the front of
the free space, and takes them off the free space. -/
def write_raw (bs : binary_serializer) (bytes : List Nat) : Option binary_serializer :=
  match bs.reserve bytes.length with
  | none => none
  | some bs1 =>
    match copy_into bs1.buf_ bs1.free_space_.offset bytes,
          bs1.free_space_.subspan bytes.length with
    | some buf, some rest => some ⟨buf, rest⟩
    | _, _ => none

mutual
/-- Modelled from the spec: the `serialize` overloads of util/binary_serializer.hpp (not
among the sources), after the encoding rules of the spec: fixed-width integers
little-endian; floats by their bit pattern little-endian; a byte as one byte; a string as
a `u64` length and its bytes; an array or sequence as a `u64` count and its elements; a
pair, a tuple and a composite as their fields in order. -/
def serialize : value → binary_serializer → Option binary_serializer
  | .int t z, bs => bs.write_raw (le_bytes t.sizeof (to_unsigned t.sizeof z))
  | .byte b, bs => bs.write_raw (le_bytes 1 b)
  | .f32 bits, bs => bs.write_raw (le_bytes 4 bits)
  | .f64 bits, bs => bs.write_raw (le_bytes 8 bits)
  | .string s, bs => (bs.write_raw (le_bytes 8 s.length)).bind (fun bs1 => bs1.write_raw s)
  | .c_array xs, bs =>
    (bs.write_raw (le_bytes 8 xs.length)).bind (fun bs1 => serialize_all xs bs1)
  | .std_array xs, bs =>
    (bs.write_raw (le_bytes 8 xs.length)).bind (fun bs1 => serialize_all xs bs1)
  | .vector xs, bs =>
    (bs.write_raw (le_bytes 8 xs.length)).bind (fun bs1 => serialize_all xs bs1)
  | .pair a b, bs => (serialize a bs).bind (fun bs1 => serialize b bs1)
  | .tuple xs, bs => serialize_all xs bs
  | .composite fields, bs => serialize_all fields bs
/-- Modelled from the spec: the call operator `operator()(ts...)` of
util/binary_serializer.hpp (not among the sources): the arguments are serialized one
after the other, in argument order. -/
def serialize_all : List value → binary_serializer → Option binary_serializer
  | [], bs => some bs
  | x :: xs, bs => (serialize x bs).bind (fun bs1 => serialize_all xs bs1)
end

/-- What the tests' `check_serializing` observes: the buffer after one serializer call
with the arguments `ts` on a fresh, empty buffer. -/
def output (ts : List value) : Option byte_buffer :=
  (serialize_all ts (init [])).map (fun bs => bs.buf_)

end binary_serializer

mutual
/-- The encoding of a value as the spec words it (binary-serializer encoding): the bytes
alone, with no serializer state. -/
def encoding : value → List Nat
  | .int t z => le_bytes t.sizeof (to_unsigned t.sizeof z)
  | .byte b => le_bytes 1 b
  | .f32 bits => le_bytes 4 bits
  | .f64 bits => le_bytes 8 bits
  | .string s => le_bytes 8 s.length ++ s
  | .c_array xs => le_bytes 8 xs.length ++ encoding_all xs
  | .std_array xs => le_bytes 8 xs.length ++ encoding_all xs
  | .vector xs => le_bytes 8 xs.length ++ encoding_all xs
  | .pair a b => encoding a ++ encoding b
  | .tuple xs => encoding_all xs
  | .composite fields => encoding_all fields
/-- The encodings of a list of values, one after the other. -/
def encoding_all : List value → List Nat
  | [] => []
  | x :: xs => encoding x ++ encoding_all xs
end

end util

/-! ## Serializer states with no free space left -/

namespace util

namespace binary_serializer

/-- The state of a serializer that has used up its free space: the free window is the
empty window at the end of the buffer. A serializer over an empty buffer starts so, and
every write leaves it so. -/
def full (bs : binary_serializer) : Prop :=
  bs.free_space_ = ⟨bs.buf_.length, 0⟩

instance (bs : binary_serializer) : Decidable bs.full := by
  unfold full; infer_instance

/-- The state after `bytes` were appended to the buffer of `bs` and the free space is
used up. -/
def appended (bs : binary_serializer) (bytes : List Nat) : binary_serializer :=
  ⟨bs.buf_ ++ bytes, ⟨(bs.buf_ ++ bytes).length, 0⟩⟩

end binary_serializer

end util

/-! ## Errors (src/header/detail/error_code.hpp) -/

namespace detail

/-- The enum `error_code` of error_code.hpp. -/
inductive error_code where
  | no_error
  | runtime_error
  | socket_operation_failed
  | invalid_argument
deriving DecidableEq, Repr

end detail

namespace util

/-- Modelled from the spec: the class `util::error` of util/error.hpp (not among the
sources): an error code with a message. -/
structure error where
  code : detail.error_code
  msg : String
deriving DecidableEq, Repr

/-- Modelled from the spec: the constant `util::none` of util/error.hpp, the success
sentinel: the error whose code is `no_error`. -/
def error.none : error := ⟨detail.error_code.no_error, ""⟩

/-- Modelled from the spec: the member `is_error()` of `util::error`: the code is not the
success sentinel. -/
def error.is_error (e : error) : Bool := e.code ≠ detail.error_code.no_error

/-- Modelled from the spec: the type `util::error_or<T>` of util/error_or.hpp (not among
the sources): the discriminated union of a value and an error. -/
inductive error_or (α : Type) where
  | value (x : α)
  | err (e : error)

/-- Modelled from the spec: the function `util::get_error` of util/error_or.hpp: the error
held, if the union holds one. -/
def get_error {α : Type} : error_or α → Option error
  | .value _ => Option.none
  | .err e => some e

/-- The function `std::get<T>` on the union: the value held; it throws when the union
holds the error, modelled as `none`. -/
def get_value {α : Type} : error_or α → Option α
  | .value x => some x
  | .err _ => Option.none

end util

/-! ## The multiplexer (src/libnet/net/multiplexer.hpp, multiplexer_impl.hpp) -/

namespace net

/-- Modelled from the spec: the enum `net::operation` of net/operation.hpp (not among the
sources): a flag word over read and write. -/
structure operation where
  bits : Nat
deriving DecidableEq, Repr

namespace ip

/-- The class `v4_endpoint` of v4_endpoint.hpp: an address and a port. -/
structure v4_endpoint where
  address_ : Nat
  port_ : Nat
deriving DecidableEq, Repr

end ip

/-- The type `tcp_stream_socket`: a socket. -/
abbrev tcp_stream_socket := socket

/-- The type `pipe_socket`: a socket. -/
abbrev pipe_socket := socket

namespace multiplexer

/-- The member template `tcp_connect<Manager>(ep, initial_op, xs...)` of multiplexer.hpp.
What the source leaves to others is a parameter: `dial` is
`make_connected_tcp_stream_socket`, `make` is the constructor of `Manager` called by
`make_intrusive` with the socket, the `this` pointer and the caller's arguments, `add` is
the pure virtual `add` acting on the state `st` of the concrete multiplexer. The result is
`none` only when `std::get` throws. -/
def tcp_connect {M σ Args : Type}
    (dial : ip.v4_endpoint → util.error_or tcp_stream_socket)
    (make : tcp_stream_socket → Nat → Args → M)
    (add : M → operation → σ → σ)
    (this : Nat) (ep : ip.v4_endpoint) (initial_op : operation) (xs : Args) (st : σ) :
    Option (util.error × σ) :=
  let sock := dial ep
  match util.get_error sock with
  | some err => some (err, st)
  | Option.none =>
    match util.get_value sock with
    | Option.none => Option.none
    | some s =>
      let mgr := make s this xs
      some (util.error.none, add mgr initial_op st)

/-- The virtual `add` of a multiplexer that only records its calls: the state is the list
of the calls made so far. -/
def add_logged {M : Type} (mgr : M) (initial : operation) (log : List (M × operation)) :
    List (M × operation) :=
  log ++ [(mgr, initial)]

end multiplexer

/-- Modelled from the spec: the function `net::write(pipe_socket, const_byte_span)` of
net/socket/pipe_socket.hpp (not among the sources): one `::write` system call on the
descriptor with the bytes of the span. The kernel decides the result (`result`); the call
is recorded in the trace of write calls. -/
def write (result : Int → util.byte_buffer → Int) (x : pipe_socket)
    (buf : util.byte_buffer) (writes : List (Int × util.byte_buffer)) :
    Int × List (Int × util.byte_buffer) :=
  (result x.id buf, writes ++ [(x.id, buf)])

/-- The class `multiplexer_impl`, as far as `write_to_pipe` reads it. -/
structure multiplexer_impl where
  pipe_writer_ : pipe_socket
  pipe_reader_ : pipe_socket
deriving DecidableEq, Repr

namespace multiplexer_impl

/-- The member template `write_to_pipe(ts...)` of multiplexer_impl.hpp: a fresh buffer, a
serializer over it, one serializer call with all arguments, then
`write(pipe_writer_, as_const_bytes(buf))`. The result is `none` only when the serializer
call has undefined behaviour. -/
def write_to_pipe (result : Int → util.byte_buffer → Int) (m : multiplexer_impl)
    (ts : List util.value) (writes : List (Int × util.byte_buffer)) :
    Option (Int × List (Int × util.byte_buffer)) :=
  let buf : util.byte_buffer := []
  let bs := util.binary_serializer.init buf
  match util.binary_serializer.serialize_all ts bs with
  | Option.none => Option.none
  | some bs1 => some (write result m.pipe_writer_ bs1.buf_ writes)

end multiplexer_impl

end net

/-! ## The name of an operation (src/src/net/operation.cpp) -/

namespace net

/-- The enumerators of `net::operation`. Their numeric values are declared in
net/operation.hpp, a header that is not among the sources, so they are a parameter of
`to_string`. -/
structure operation_values where
  none : operation
  read : operation
  write : operation
  read_write : operation
deriving DecidableEq, Repr

/-- The enumerators are pairwise different, as the case labels of one `switch` must be. -/
def operation_values.distinct (c : operation_values) : Prop :=
  c.none ≠ c.read ∧ c.none ≠ c.write ∧ c.none ≠ c.read_write
  ∧ c.read ≠ c.write ∧ c.read ≠ c.read_write ∧ c.write ≠ c.read_write

instance (c : operation_values) : Decidable c.distinct := by
  unfold operation_values.distinct; infer_instance

/-- The characters of `std::bitset<w>::to_string()` for the number `x`: one character per
bit, `'1'` for a set bit and `'0'` for a clear one, the most significant bit first. -/
def bitset_chars : Nat → Nat → List Char
  | 0, _ => []
  | w + 1, x => (if x / 2 ^ w % 2 = 1 then '1' else '0') :: bitset_chars w x

/-- The string `std::bitset<32>(x).to_string()`. -/
def bitset32_to_string (x : Nat) : String := String.mk (bitset_chars 32 x)

/-- The number a string of binary digits denotes, the most significant digit first. -/
def binary_value (cs : List Char) : Nat :=
  cs.foldl (fun acc c => 2 * acc + (if c = '1' then 1 else 0)) 0

/-- The function `net::to_string(operation op)` of operation.cpp: the name of each of the
four enumerators, and for every other value the text `unknown operation: ` followed by
the 32 bits of `static_cast<uint32_t>(op)`. -/
def to_string (c : operation_values) (op : operation) : String :=
  if op = c.none then "none"
  else if op = c.read then "read"
  else if op = c.write then "write"
  else if op = c.read_write then "read_write"
  else "unknown operation: " ++ bitset32_to_string (op.bits % 2 ^ 32)

end net

/-! ## The non-blocking switch (src/src/net/socket.cpp) -/

namespace net

/-- The statement `flags = new_value ? (flags | O_NONBLOCK) : (flags & ~O_NONBLOCK)` of
`net::nonblocking`, on `int` values in two's complement. The constant `O_NONBLOCK` comes
from the system headers and is a parameter. -/
def nonblocking_flags (O_NONBLOCK : Int) (new_value : Bool) (flags : Int) : Int :=
  if new_value then Int.lor flags O_NONBLOCK else Int.land flags (Int.lnot O_NONBLOCK)

/-- The function `net::nonblocking(socket hdl, bool new_value)` of socket.cpp. The two
system calls are parameters: `getfl fd` is the result of `fcntl(fd, F_GETFL, 0)` and
`setfl fd flags` the result of `fcntl(fd, F_SETFL, flags)`. The result is the returned
boolean and the list of the `F_SETFL` calls made, each with its descriptor and the flag
word written. -/
def nonblocking (O_NONBLOCK : Int) (getfl : Int → Int) (setfl : Int → Int → Int)
    (hdl : socket) (new_value : Bool) : Bool × List (Int × Int) :=
  let flags := getfl hdl.id
  if flags = -1 then
    (false, [])
  else
    let flags := nonblocking_flags O_NONBLOCK new_value flags
    (decide (setfl hdl.id flags = 0), [(hdl.id, flags)])

end net

/-! ## The number of socket managers (src/libnet/net/multiplexer_impl.hpp) -/

namespace net

/-- The type `manager_map` of multiplexer_impl.hpp, an
`std::unordered_map<socket_id, socket_manager_ptr>`: its entries, each a socket id with the
address of its manager. -/
structure manager_map where
  entries : List (Int × Nat)
deriving DecidableEq, Repr

/-- The member `size()` of the map: the number of its entries. -/
def manager_map.size (m : manager_map) : Nat := m.entries.length

/-- The member `num_socket_managers()` of `multiplexer_impl`:
`std::uint16_t num_socket_managers() const { return managers_.size(); }`. It reads the
field `managers_` alone, which is its argument here; the conversion of the `size_t` to
the 16-bit result type reduces it modulo `2 ^ 16`. -/
def multiplexer_impl.num_socket_managers (managers_ : manager_map) : Nat :=
  managers_.size % 2 ^ 16

end net

/-! ## The invariant of the serializer's free space -/

namespace util

namespace binary_serializer

/-- The free space is a trailing window of the buffer: it ends where the buffer ends. -/
def trailing (bs : binary_serializer) : Prop :=
  bs.free_space_.offset + bs.free_space_.size = bs.buf_.length

instance (bs : binary_serializer) : Decidable bs.trailing := by
  unfold trailing; infer_instance

end binary_serializer

end util

/-! ## Lemmas on the serializer -/

namespace util

theorem le_bytes_length (w n : Nat) : (le_bytes w n).length = w := by
  induction w generalizing n with
  | zero => rfl
  | succ w ih => simp [le_bytes, ih]

theorem le_bytes_lt (w n : Nat) : ∀ b ∈ le_bytes w n, b < 256 := by
  induction w generalizing n with
  | zero => simp [le_bytes]
  | succ w ih =>
    intro b hb
    simp only [le_bytes, List.mem_cons] at hb
    rcases hb with rfl | hb
    · exact Nat.mod_lt _ (by decide)
    · exact ih _ b hb

theorem le_value_le_bytes (w n : Nat) : le_value (le_bytes w n) = n % 256 ^ w := by
  induction w generalizing n with
  | zero => simp [le_bytes, le_value, Nat.mod_one]
  | succ w ih =>
    simp only [le_bytes, le_value, ih]
    rw [pow_succ, Nat.mul_comm (256 ^ w) 256, Nat.mod_mul]

theorem encoding_all_eq (vs : List value) : encoding_all vs = (vs.map encoding).flatten := by
  induction vs with
  | nil => rfl
  | cons x xs ih => simp [encoding_all, ih]

namespace binary_serializer

theorem appended_full (bs : binary_serializer) (bytes : List Nat) :
    (bs.appended bytes).full := rfl

theorem appended_appended (bs : binary_serializer) (xs ys : List Nat) :
    (bs.appended xs).appended ys = bs.appended (xs ++ ys) := by
  simp [appended]

/-- A raw write on a serializer with no free space appends the bytes. -/
theorem write_raw_full (bs : binary_serializer) (h : bs.full) (bytes : List Nat) :
    bs.write_raw bytes = some (bs.appended bytes) := by
  obtain ⟨buf, sp⟩ := bs
  simp only [full] at h
  subst h
  by_cases hb : bytes.length = 0
  · have : bytes = [] := List.length_eq_zero.mp hb
    subst this
    simp [write_raw, reserve, copy_into, byte_span.subspan, appended]
  · have hpos : 0 < bytes.length := Nat.pos_of_ne_zero hb
    simp [write_raw, reserve, hpos, resize, byte_span.last, byte_span.of_buffer,
      copy_into, byte_span.subspan, appended]
    have h1 : List.take (buf.length + bytes.length) buf = buf :=
      List.take_of_length_le (Nat.le_add_right _ _)
    rw [h1, List.drop_of_length_le (by simp)]
    simp

mutual
/-- Serializing a value on a serializer with no free space appends its encoding. -/
theorem serialize_full (v : value) (bs : binary_serializer) (h : bs.full) :
    serialize v bs = some (bs.appended (encoding v)) := by
  cases v with
  | int t z => simp only [serialize, encoding]; exact write_raw_full bs h _
  | byte b => simp only [serialize, encoding]; exact write_raw_full bs h _
  | f32 bits => simp only [serialize, encoding]; exact write_raw_full bs h _
  | f64 bits => simp only [serialize, encoding]; exact write_raw_full bs h _
  | string s =>
    simp only [serialize, encoding]
    rw [write_raw_full bs h, Option.some_bind, write_raw_full _ (appended_full _ _),
      appended_appended]
  | c_array xs =>
    simp only [serialize, encoding]
    rw [write_raw_full bs h, Option.some_bind, serialize_all_full xs _ (appended_full _ _),
      appended_appended]
  | std_array xs =>
    simp only [serialize, encoding]
    rw [write_raw_full bs h, Option.some_bind, serialize_all_full xs _ (appended_full _ _),
      appended_appended]
  | vector xs =>
    simp only [serialize, encoding]
    rw [write_raw_full bs h, Option.some_bind, serialize_all_full xs _ (appended_full _ _),
      appended_appended]
  | pair a b =>
    simp only [serialize, encoding]
    rw [serialize_full a bs h, Option.some_bind, serialize_full b _ (appended_full _ _),
      appended_appended]
  | tuple xs => simp only [serialize, encoding]; exact serialize_all_full xs bs h
  | composite fields => simp only [serialize, encoding]; exact serialize_all_full fields bs h
/-- One serializer call on a serializer with no free space appends the encodings of its
arguments, in order. -/
theorem serialize_all_full (vs : List value) (bs : binary_serializer) (h : bs.full) :
    serialize_all vs bs = some (bs.appended (encoding_all vs)) := by
  cases vs with
  | nil =>
    obtain ⟨buf, sp⟩ := bs
    simp only [full] at h
    subst h
    simp [serialize_all, encoding_all, appended]
  | cons x xs =>
    simp only [serialize_all, encoding_all]
    rw [serialize_full x bs h, Option.some_bind, serialize_all_full xs _ (appended_full _ _),
      appended_appended]
end

theorem output_eq (ts : List value) : output ts = some (encoding_all ts) := by
  have h : (init []).full := rfl
  unfold output
  rw [serialize_all_full ts _ h]
  simp [appended, init]

end binary_serializer

end util

/-! ## Lemmas on realloc -/

namespace util

namespace binary_serializer

/-- With enough free space `realloc` changes nothing. -/
theorem realloc_keep (max_size : Nat) (bs : binary_serializer) (n : Nat)
    (h : n ≤ bs.free_space_.size) : bs.realloc max_size n = some bs := by
  simp [realloc, Nat.not_lt.mpr h]

/-- With too little free space, inside the buffer, and a grown size within `max_size`,
`realloc` appends the missing bytes and makes the last `n` bytes the free space. -/
theorem realloc_grow (max_size : Nat) (bs : binary_serializer) (n : Nat)
    (hmax : max_size < 2 ^ 64) (hlt : bs.free_space_.size < n)
    (hwf : bs.free_space_.size ≤ bs.buf_.length)
    (hfit : bs.buf_.length + (n - bs.free_space_.size) ≤ max_size) :
    bs.realloc max_size n
      = some ⟨bs.buf_ ++ List.replicate (n - bs.free_space_.size) 0,
              ⟨bs.buf_.length - bs.free_space_.size, n⟩⟩ := by
  have hmod : (bs.buf_.length + (n - bs.free_space_.size)) % 2 ^ 64
      = bs.buf_.length + (n - bs.free_space_.size) :=
    Nat.mod_eq_of_lt (lt_of_le_of_lt hfit hmax)
  have h1 : List.take (bs.buf_.length + (n - bs.free_space_.size)) bs.buf_ = bs.buf_ :=
    List.take_of_length_le (Nat.le_add_right _ _)
  have h2 : n ≤ bs.buf_.length + (n - bs.free_space_.size) := by omega
  have h3 : bs.buf_.length + (n - bs.free_space_.size) - n
      = bs.buf_.length - bs.free_space_.size := by omega
  unfold realloc
  simp only [hlt, if_true]
  rw [hmod]
  simp [hfit, resize, byte_span.last, byte_span.of_buffer, h1, h2, h3]

/-- The reservation of the write path is `realloc` whenever the grown size is within
`max_size`, itself below `2 ^ 64`. -/
theorem reserve_eq_realloc (max_size : Nat) (bs : binary_serializer) (n : Nat)
    (hmax : max_size < 2 ^ 64)
    (hfit : bs.free_space_.size < n →
      bs.buf_.length + (n - bs.free_space_.size) ≤ max_size) :
    bs.reserve n = bs.realloc max_size n := by
  by_cases hlt : bs.free_space_.size < n
  · have hmod : (bs.buf_.length + (n - bs.free_space_.size)) % 2 ^ 64
        = bs.buf_.length + (n - bs.free_space_.size) :=
      Nat.mod_eq_of_lt (lt_of_le_of_lt (hfit hlt) hmax)
    unfold reserve realloc
    simp only [hlt, if_true]
    rw [hmod]
    simp [hfit hlt]
  · simp [reserve, realloc, hlt]

end binary_serializer

end util

/-! ## Lemmas on the digits of a bitset -/

namespace net

theorem bitset_chars_length (w x : Nat) : (bitset_chars w x).length = w := by
  induction w with
  | zero => rfl
  | succ w ih => simp [bitset_chars, ih]

theorem bitset_chars_digit (w x : Nat) : ∀ d ∈ bitset_chars w x, d = '0' ∨ d = '1' := by
  induction w with
  | zero => simp [bitset_chars]
  | succ w ih =>
    intro d hd
    simp only [bitset_chars, List.mem_cons] at hd
    rcases hd with rfl | hd
    · by_cases hb : x / 2 ^ w % 2 = 1 <;> simp [hb]
    · exact ih d hd

theorem binary_value_foldl (w x acc : Nat) :
    (bitset_chars w x).foldl (fun acc c => 2 * acc + (if c = '1' then 1 else 0)) acc
      = acc * 2 ^ w + x % 2 ^ w := by
  induction w generalizing acc with
  | zero => simp [bitset_chars, Nat.mod_one]
  | succ w ih =>
    simp only [bitset_chars, List.foldl_cons]
    rw [ih, Nat.mod_pow_succ]
    have h2 : x / 2 ^ w % 2 < 2 := Nat.mod_lt _ (by decide)
    by_cases hb : x / 2 ^ w % 2 = 1
    · simp only [hb, if_true]
      ring
    · have h0 : x / 2 ^ w % 2 = 0 := by omega
      simp only [h0]
      simp
      ring

/-- Reading the digits of a `w`-bit bitset back gives the number modulo `2 ^ w`. -/
theorem binary_value_bitset_chars (w x : Nat) :
    binary_value (bitset_chars w x) = x % 2 ^ w := by
  unfold binary_value
  rw [binary_value_foldl]
  simp

theorem name_ne_unknown (name s : String) (hn : name.data.head? ≠ some 'u') :
    name ≠ "unknown operation: " ++ s := by
  intro h
  apply hn
  rw [h]
  rfl

theorem unknown_injective (x y : Nat) (hx : x < 2 ^ 32) (hy : y < 2 ^ 32)
    (h : "unknown operation: " ++ bitset32_to_string x
      = "unknown operation: " ++ bitset32_to_string y) : x = y := by
  have hd := congrArg String.data h
  simp only [String.data_append, bitset32_to_string] at hd
  have hc : bitset_chars 32 x = bitset_chars 32 y := List.append_cancel_left hd
  have hv := congrArg binary_value hc
  rw [binary_value_bitset_chars, binary_value_bitset_chars, Nat.mod_eq_of_lt hx,
    Nat.mod_eq_of_lt hy] at hv
  exact hv

end net

/-! ## Lemmas on the flag word -/

namespace net

/-- Two integers with the same bits are equal. -/
theorem int_eq_of_testBit_eq (a b : Int) (h : ∀ i : Nat, Int.testBit a i = Int.testBit b i) :
    a = b := by
  have hlt : ∀ n k : Nat, n < 2 ^ (n + k) :=
    fun n k => lt_of_lt_of_le n.lt_two_pow (Nat.pow_le_pow_right (by decide) (Nat.le_add_right _ _))
  cases a with
  | ofNat m =>
    cases b with
    | ofNat n =>
      congr 1
      exact Nat.eq_of_testBit_eq (fun i => by simpa [Int.testBit] using h i)
    | negSucc n =>
      exfalso
      have := h (m + n)
      simp only [Int.testBit] at this
      rw [Nat.testBit_lt_two_pow (hlt m n),
        Nat.testBit_lt_two_pow (by rw [Nat.add_comm]; exact hlt n m)] at this
      simp at this
  | negSucc m =>
    cases b with
    | ofNat n =>
      exfalso
      have := h (m + n)
      simp only [Int.testBit] at this
      rw [Nat.testBit_lt_two_pow (hlt m n),
        Nat.testBit_lt_two_pow (by rw [Nat.add_comm]; exact hlt n m)] at this
      simp at this
    | negSucc n =>
      congr 1
      exact Nat.eq_of_testBit_eq (fun i => by simpa [Int.testBit] using h i)

/-- The bits of the new flag word: the bits of the mask take the new value, the others
stay. -/
theorem testBit_nonblocking_flags (mask : Int) (v : Bool) (x : Int) (i : Nat) :
    Int.testBit (nonblocking_flags mask v x) i
      = if Int.testBit mask i then v else Int.testBit x i := by
  cases v <;> simp [nonblocking_flags, Int.testBit_lor, Int.testBit_land, Int.testBit_lnot] <;>
    cases Int.testBit mask i <;> simp

theorem nonblocking_flags_idem (mask : Int) (v : Bool) (x : Int) :
    nonblocking_flags mask v (nonblocking_flags mask v x) = nonblocking_flags mask v x := by
  apply int_eq_of_testBit_eq
  intro i
  rw [testBit_nonblocking_flags, testBit_nonblocking_flags]
  cases Int.testBit mask i <;> simp

/-- A non-negative flag word stays non-negative when `O_NONBLOCK` is non-negative. -/
theorem nonblocking_flags_nonneg (mask : Int) (v : Bool) (x : Int) (hx : 0 ≤ x)
    (hm : 0 ≤ mask) : 0 ≤ nonblocking_flags mask v x := by
  obtain ⟨a, rfl⟩ := Int.eq_ofNat_of_zero_le hx
  obtain ⟨m, rfl⟩ := Int.eq_ofNat_of_zero_le hm
  cases v
  · exact Int.ofNat_zero_le _
  · exact Int.ofNat_zero_le _

end net

/-! ## Theorems -/

open util util.binary_serializer


/-- C1: for every socket `s` and kernel state `k`, a guard constructed over `s` and then
released returns `s` from `release`, afterwards holds the invalid socket (id `-1`), and
its destruction leaves the kernel state as it was: no close call is made and the set of
open descriptors is unchanged. -/
theorem socket_guard_release_closes_nothing (s : net.socket) (k : net.kernel) :
    (detail.make_socket_guard s).release.1 = s
    ∧ (detail.make_socket_guard s).release.2.sock_ = net.invalid_socket
    ∧ (detail.make_socket_guard s).release.2.sock_.id = -1
    ∧ (detail.make_socket_guard s).release.2.destroy k = k
    ∧ ((detail.make_socket_guard s).release.2.destroy k).open_fds = k.open_fds
    ∧ ((detail.make_socket_guard s).release.2.destroy k).trace = k.trace := by
  have h : (detail.make_socket_guard s).release.2.destroy k = k := by
    simp [detail.make_socket_guard, detail.socket_guard.release,
      detail.socket_guard.destroy, net.invalid_socket, net.invalid_socket_id, invalid_fd]
  refine ⟨rfl, rfl, rfl, h, ?_, ?_⟩ <;> rw [h]

/-- C2: for every socket `s`, dropping a guard over `s` without a release calls
`net::close` on `s` exactly when `s` is not the invalid socket; when it does, the calls
made are that `net::close` and the one `::close(s.id)` it issues, and `s.id` is no longer
open; for the invalid socket the guard leaves the kernel untouched and `net::close` itself
issues no `::close` system call. -/
theorem socket_guard_drop_closes_iff_valid (s : net.socket) (k : net.kernel) :
    (net.event.net_close s ∈
        (((detail.make_socket_guard s).destroy k).trace.drop k.trace.length)
      ↔ s ≠ net.invalid_socket)
    ∧ (s ≠ net.invalid_socket →
        ((detail.make_socket_guard s).destroy k).trace
          = k.trace ++ [net.event.net_close s, net.event.sys_close s.id]
        ∧ s.id ∉ ((detail.make_socket_guard s).destroy k).open_fds)
    ∧ (s = net.invalid_socket → (detail.make_socket_guard s).destroy k = k)
    ∧ (∀ fd, net.event.sys_close fd ∉
        ((net.close net.invalid_socket k).trace.drop k.trace.length))
    ∧ (net.close net.invalid_socket k).open_fds = k.open_fds := by
  by_cases h : s = net.invalid_socket
  · subst h
    simp [detail.make_socket_guard, detail.socket_guard.destroy, net.close]
  · simp [detail.make_socket_guard, detail.socket_guard.destroy, net.close, net.sys_close, h]

/-- The theorem of C2 at the socket 5 with the descriptors 3 and 5 open, and at the invalid
socket: the first drop closes descriptor 5, the second does nothing. -/
theorem socket_guard_drop_closes_iff_valid_witness :
    (⟨5⟩ : net.socket) ≠ net.invalid_socket
    ∧ ((detail.make_socket_guard ⟨5⟩).destroy ⟨[3, 5], []⟩).trace
        = [net.event.net_close ⟨5⟩, net.event.sys_close 5]
    ∧ (5 : Int) ∉ ((detail.make_socket_guard ⟨5⟩).destroy ⟨[3, 5], []⟩).open_fds
    ∧ (detail.make_socket_guard net.invalid_socket).destroy ⟨[3, 5], []⟩ = ⟨[3, 5], []⟩ :=
  ⟨by decide,
    ((socket_guard_drop_closes_iff_valid ⟨5⟩ ⟨[3, 5], []⟩).2.1 (by decide)).1,
    ((socket_guard_drop_closes_iff_valid ⟨5⟩ ⟨[3, 5], []⟩).2.1 (by decide)).2,
    (socket_guard_drop_closes_iff_valid net.invalid_socket ⟨[3, 5], []⟩).2.2.1 rfl⟩

/-- C7: for every `min_size` and `max_size` with `0 < min_size ≤ max_size`,
`between(min_size, max_size)` is the policy `(min_size, max_size)`, and for every
`size > 0`, `exactly(size)` is `(size, size)`; both satisfy `0 < min_size ≤ max_size`, and
neither is equal to `stop()`, which is `(0, 0)`, under `operator==`. -/
theorem between_exactly_valid_not_stop (min_size max_size size : Nat)
    (hmin : 0 < min_size) (hle : min_size ≤ max_size) (hsize : 0 < size) :
    net.receive_policy.between min_size max_size = ⟨min_size, max_size⟩
    ∧ net.receive_policy.exactly size = ⟨size, size⟩
    ∧ (net.receive_policy.between min_size max_size).valid
    ∧ (net.receive_policy.exactly size).valid
    ∧ net.receive_policy.stop = ⟨0, 0⟩
    ∧ net.receive_policy.eq (net.receive_policy.between min_size max_size)
        net.receive_policy.stop = false
    ∧ net.receive_policy.eq (net.receive_policy.exactly size) net.receive_policy.stop = false
    ∧ net.receive_policy.between min_size max_size ≠ net.receive_policy.stop
    ∧ net.receive_policy.exactly size ≠ net.receive_policy.stop := by
  refine ⟨rfl, rfl, ⟨hmin, hle⟩, ⟨hsize, le_refl _⟩, rfl, ?_, ?_, ?_, ?_⟩
  · simp [net.receive_policy.eq, net.receive_policy.between, net.receive_policy.stop]
    omega
  · simp [net.receive_policy.eq, net.receive_policy.exactly, net.receive_policy.stop]
    omega
  · simp [net.receive_policy.between, net.receive_policy.stop]
    omega
  · simp [net.receive_policy.exactly, net.receive_policy.stop]
    omega

/-- The theorem of C7 at `between(2, 5)` and `exactly(3)`. -/
theorem between_exactly_valid_not_stop_witness :
    (0 < 2 ∧ 2 ≤ 5 ∧ 0 < 3)
    ∧ (net.receive_policy.between 2 5).valid
    ∧ (net.receive_policy.exactly 3).valid
    ∧ net.receive_policy.eq (net.receive_policy.between 2 5) net.receive_policy.stop = false
    ∧ net.receive_policy.eq (net.receive_policy.exactly 3) net.receive_policy.stop = false :=
  have h := between_exactly_valid_not_stop 2 5 3 (by decide) (by decide) (by decide)
  ⟨by decide, h.2.2.1, h.2.2.2.1, h.2.2.2.2.2.1, h.2.2.2.2.2.2.1⟩

/-- C8, as stated, fails: `0` is a 32-bit `max_size`, and `up_to(0)` is the policy
`(1, 0)`, whose `min_size` exceeds its `max_size`. -/
theorem up_to_zero_not_valid :
    (0 : Nat) < 2 ^ 32
    ∧ net.receive_policy.up_to 0 = ⟨1, 0⟩
    ∧ ¬ (net.receive_policy.up_to 0).valid := by
  decide

/-- C8, amended: for every `max_size` that is at least 1 (32-bit or not), `up_to(max_size)` is the
policy `(1, max_size)` and satisfies `0 < min_size ≤ max_size`. -/
theorem up_to_valid_of_pos (max_size : Nat) (hpos : 1 ≤ max_size) :
    net.receive_policy.up_to max_size = ⟨1, max_size⟩
    ∧ (net.receive_policy.up_to max_size).valid :=
  ⟨rfl, ⟨Nat.one_pos, hpos⟩⟩

/-- The amended C8 at `up_to(1024)`. -/
theorem up_to_valid_of_pos_witness :
    1 ≤ 1024
    ∧ net.receive_policy.up_to 1024 = ⟨1, 1024⟩
    ∧ (net.receive_policy.up_to 1024).valid :=
  ⟨by decide, up_to_valid_of_pos 1024 (by decide)⟩

/-- C9: for every endpoint and `initial_op`, `tcp_connect` returns normally; when the dial
fails with error `e` it returns exactly `e` and does not call `add` (the multiplexer's
state, and the log of a multiplexer that records its `add` calls, are unchanged); when the
dial yields the socket `s` it returns `util::none` after exactly one call of `add`, on the
manager built from `s`, the `this` pointer and the caller's arguments, with `initial_op`;
so, the errors a dial reports being errors, it returns an error iff the dial fails. -/
theorem tcp_connect_error_iff_dial_fails {M σ Args : Type}
    (dial : net.ip.v4_endpoint → util.error_or net.tcp_stream_socket)
    (make : net.tcp_stream_socket → Nat → Args → M)
    (add : M → net.operation → σ → σ)
    (this : Nat) (ep : net.ip.v4_endpoint) (initial_op : net.operation) (xs : Args)
    (st : σ) (log : List (M × net.operation)) :
    (∀ e, dial ep = util.error_or.err e →
        net.multiplexer.tcp_connect dial make add this ep initial_op xs st = some (e, st)
        ∧ net.multiplexer.tcp_connect dial make net.multiplexer.add_logged this ep
            initial_op xs log = some (e, log))
    ∧ (∀ s, dial ep = util.error_or.value s →
        net.multiplexer.tcp_connect dial make add this ep initial_op xs st
          = some (util.error.none, add (make s this xs) initial_op st)
        ∧ net.multiplexer.tcp_connect dial make net.multiplexer.add_logged this ep
            initial_op xs log = some (util.error.none, log ++ [(make s this xs, initial_op)]))
    ∧ ((∀ e, dial ep = util.error_or.err e → e.is_error = true) →
        ∃ r st1, net.multiplexer.tcp_connect dial make add this ep initial_op xs st
            = some (r, st1)
          ∧ (r.is_error = true ↔ ∃ e, dial ep = util.error_or.err e)) := by
  refine ⟨?_, ?_, ?_⟩
  · intro e he
    simp [net.multiplexer.tcp_connect, he, util.get_error]
  · intro s hs
    simp [net.multiplexer.tcp_connect, hs, util.get_error, util.get_value,
      net.multiplexer.add_logged]
  · intro hgen
    cases hd : dial ep with
    | value s =>
      refine ⟨util.error.none, add (make s this xs) initial_op st, ?_, ?_⟩
      · simp [net.multiplexer.tcp_connect, hd, util.get_error, util.get_value]
      · simp [util.error.none, util.error.is_error]
    | err e =>
      refine ⟨e, st, ?_, ?_⟩
      · simp [net.multiplexer.tcp_connect, hd, util.get_error]
      · simp [hgen e hd]

/-- The theorem of C9 at a dial that fails with `socket_operation_failed` and at a dial
that yields the socket 7, on a multiplexer that records its `add` calls. -/
theorem tcp_connect_error_iff_dial_fails_witness :
    (∀ e, (fun _ : net.ip.v4_endpoint => (util.error_or.err
              ⟨detail.error_code.socket_operation_failed, "connect"⟩ :
              util.error_or net.tcp_stream_socket)) ⟨0x7F000001, 80⟩ = util.error_or.err e →
        e.is_error = true)
    ∧ (∃ r st1, net.multiplexer.tcp_connect
            (fun _ => util.error_or.err ⟨detail.error_code.socket_operation_failed, "connect"⟩)
            (fun (s : net.socket) (this : Nat) (xs : Nat) => (s, this, xs))
            net.multiplexer.add_logged 1 ⟨0x7F000001, 80⟩ ⟨1⟩ 42 [] = some (r, st1)
          ∧ (r.is_error = true ↔ ∃ e, (fun _ : net.ip.v4_endpoint => (util.error_or.err
              ⟨detail.error_code.socket_operation_failed, "connect"⟩ :
              util.error_or net.tcp_stream_socket)) ⟨0x7F000001, 80⟩ = util.error_or.err e))
    ∧ net.multiplexer.tcp_connect (fun _ => util.error_or.value ⟨7⟩)
          (fun (s : net.socket) (this : Nat) (xs : Nat) => (s, this, xs))
          net.multiplexer.add_logged 1 ⟨0x7F000001, 80⟩ ⟨1⟩ 42 []
        = some (util.error.none, [] ++ [((⟨7⟩, 1, 42), ⟨1⟩)]) := by
  have hgen : ∀ e, (fun _ : net.ip.v4_endpoint => (util.error_or.err
              ⟨detail.error_code.socket_operation_failed, "connect"⟩ :
              util.error_or net.tcp_stream_socket)) ⟨0x7F000001, 80⟩ = util.error_or.err e →
        e.is_error = true := by
    intro e he
    injection he with he
    subst he
    rfl
  exact ⟨hgen,
    (tcp_connect_error_iff_dial_fails
      (fun _ => util.error_or.err ⟨detail.error_code.socket_operation_failed, "connect"⟩)
      (fun (s : net.socket) (this : Nat) (xs : Nat) => (s, this, xs))
      net.multiplexer.add_logged 1 ⟨0x7F000001, 80⟩ ⟨1⟩ 42 [] []).2.2 hgen,
    ((tcp_connect_error_iff_dial_fails (fun _ => util.error_or.value ⟨7⟩)
      (fun (s : net.socket) (this : Nat) (xs : Nat) => (s, this, xs))
      net.multiplexer.add_logged 1 ⟨0x7F000001, 80⟩ ⟨1⟩ 42 [] []).2.1 ⟨7⟩ rfl).2⟩

/-- C11: for enumerators with pairwise different values, `to_string` maps `none`, `read`,
`write` and `read_write` to the four different strings "none", "read", "write" and
"read_write", and every other value to "unknown operation: " followed by 32 binary digits
whose value is the operation value modulo `2 ^ 32`; so `to_string` is injective on the
operation values below `2 ^ 32`. -/
theorem to_string_injective_on_32_bits (c : net.operation_values) (hd : c.distinct) :
    net.to_string c c.none = "none"
    ∧ net.to_string c c.read = "read"
    ∧ net.to_string c c.write = "write"
    ∧ net.to_string c c.read_write = "read_write"
    ∧ ["none", "read", "write", "read_write"].Nodup
    ∧ (∀ op : net.operation,
        op ≠ c.none → op ≠ c.read → op ≠ c.write → op ≠ c.read_write →
        ∃ digits : List Char,
          net.to_string c op = "unknown operation: " ++ String.mk digits
          ∧ digits.length = 32
          ∧ (∀ d ∈ digits, d = '0' ∨ d = '1')
          ∧ net.binary_value digits = op.bits % 2 ^ 32)
    ∧ (∀ a b : net.operation, a.bits < 2 ^ 32 → b.bits < 2 ^ 32 →
        net.to_string c a = net.to_string c b → a = b) := by
  obtain ⟨h1, h2, h3, h4, h5, h6⟩ := hd
  refine ⟨?_, ?_, ?_, ?_, by decide, ?_, ?_⟩
  · simp [net.to_string]
  · simp [net.to_string, Ne.symm h1]
  · simp [net.to_string, Ne.symm h2, Ne.symm h4]
  · simp [net.to_string, Ne.symm h3, Ne.symm h5, Ne.symm h6]
  · intro op n1 n2 n3 n4
    refine ⟨net.bitset_chars 32 (op.bits % 2 ^ 32), ?_, net.bitset_chars_length _ _,
      net.bitset_chars_digit _ _, ?_⟩
    · simp [net.to_string, n1, n2, n3, n4, net.bitset32_to_string]
    · rw [net.binary_value_bitset_chars, Nat.mod_mod]
  · intro a b ha hb h
    unfold net.to_string at h
    split_ifs at h
    all_goals first
      | (subst_vars; rfl)
      | exact absurd h (by decide)
      | exact absurd h (net.name_ne_unknown _ _ (by decide))
      | exact absurd h.symm (net.name_ne_unknown _ _ (by decide))
      | skip
    have hx := net.unknown_injective _ _ (Nat.mod_lt _ (by norm_num))
      (Nat.mod_lt _ (by norm_num)) h
    rw [Nat.mod_eq_of_lt ha, Nat.mod_eq_of_lt hb] at hx
    cases a
    cases b
    simp_all

/-- The theorem of C11 at the enumerator values 0, 1, 2 and 3, and at the value 5, which
is none of them. -/
theorem to_string_injective_on_32_bits_witness :
    (⟨⟨0⟩, ⟨1⟩, ⟨2⟩, ⟨3⟩⟩ : net.operation_values).distinct
    ∧ net.to_string ⟨⟨0⟩, ⟨1⟩, ⟨2⟩, ⟨3⟩⟩ ⟨1⟩ = "read"
    ∧ net.to_string ⟨⟨0⟩, ⟨1⟩, ⟨2⟩, ⟨3⟩⟩ ⟨3⟩ = "read_write"
    ∧ ∃ digits : List Char,
        net.to_string ⟨⟨0⟩, ⟨1⟩, ⟨2⟩, ⟨3⟩⟩ ⟨5⟩ = "unknown operation: " ++ String.mk digits
        ∧ digits.length = 32
        ∧ (∀ d ∈ digits, d = '0' ∨ d = '1')
        ∧ net.binary_value digits = 5 % 2 ^ 32 :=
  have h := to_string_injective_on_32_bits ⟨⟨0⟩, ⟨1⟩, ⟨2⟩, ⟨3⟩⟩ (by decide)
  ⟨by decide, h.2.1, h.2.2.2.1,
    h.2.2.2.2.2.1 ⟨5⟩ (by decide) (by decide) (by decide) (by decide)⟩

/-- C12, as stated, fails: on the 3-byte buffer `[1, 2, 3]` with no free space left and the
required size `2 ^ 64 - 2` (a `size_t` value), the sum `buf_.size() + missing` wraps to 1,
`resize` shrinks the buffer to `[1]` (the previous contents are not kept), the slice
`last(2 ^ 64 - 2)` of that 1-byte buffer is out of bounds, and `realloc` returns no state
with the required free space. -/
theorem realloc_huge_size_wraps :
    2 ^ 64 - 2 < 2 ^ 64
    ∧ (⟨[1, 2, 3], ⟨3, 0⟩⟩ : binary_serializer).free_space_.size
        ≤ (⟨[1, 2, 3], ⟨3, 0⟩⟩ : binary_serializer).buf_.length
    ∧ ([1, 2, 3].length + (2 ^ 64 - 2 - 0)) % 2 ^ 64 = 1
    ∧ resize [1, 2, 3] (([1, 2, 3].length + (2 ^ 64 - 2 - 0)) % 2 ^ 64) = [1]
    ∧ (byte_span.of_buffer (resize [1, 2, 3] 1)).last (2 ^ 64 - 2) = none
    ∧ (⟨[1, 2, 3], ⟨3, 0⟩⟩ : binary_serializer).realloc (2 ^ 63 - 1) (2 ^ 64 - 2) = none
    ∧ ¬ ∃ bs1 : binary_serializer,
        (⟨[1, 2, 3], ⟨3, 0⟩⟩ : binary_serializer).realloc (2 ^ 63 - 1) (2 ^ 64 - 2) = some bs1
        ∧ 2 ^ 64 - 2 ≤ bs1.free_space_.size := by
  have h : (⟨[1, 2, 3], ⟨3, 0⟩⟩ : binary_serializer).realloc (2 ^ 63 - 1) (2 ^ 64 - 2)
      = none := by decide
  refine ⟨by decide, by decide, by decide, by decide, by decide, h, ?_⟩
  rintro ⟨bs1, h1, -⟩
  rw [h] at h1
  exact Option.noConfusion h1

/-- C12, amended: for every serializer state whose free space (of `f` bytes) lies within
the buffer and every required size `n` such that, when `f < n`, the grown size
`buf_.size() + (n - f)` does not exceed `max_size()` (itself below `2 ^ 64`, so the sum
does not wrap), `realloc(n)` returns normally and leaves at least `n` bytes of free space;
when `f ≥ n` the state is unchanged; when `f < n` the buffer grows by exactly `n - f`
(zero) bytes behind its previous contents and the free space becomes exactly the last `n`
bytes of the buffer. -/
theorem realloc_leaves_required_free_space_within_max_size (max_size : Nat)
    (bs : binary_serializer) (n : Nat) (hmax : max_size < 2 ^ 64)
    (hwf : bs.free_space_.size ≤ bs.buf_.length)
    (hfit : bs.free_space_.size < n →
      bs.buf_.length + (n - bs.free_space_.size) ≤ max_size) :
    ∃ bs1 : binary_serializer,
      bs.realloc max_size n = some bs1
      ∧ n ≤ bs1.free_space_.size
      ∧ (n ≤ bs.free_space_.size → bs1 = bs)
      ∧ (bs.free_space_.size < n →
          bs1.buf_.length = bs.buf_.length + (n - bs.free_space_.size)
          ∧ bs1.buf_ = bs.buf_ ++ List.replicate (n - bs.free_space_.size) 0
          ∧ bs1.buf_.take bs.buf_.length = bs.buf_
          ∧ bs1.free_space_.size = n
          ∧ bs1.free_space_.offset = bs1.buf_.length - n
          ∧ bs1.free_space_.offset + bs1.free_space_.size = bs1.buf_.length) := by
  by_cases hlt : bs.free_space_.size < n
  · refine ⟨_, realloc_grow max_size bs n hmax hlt hwf (hfit hlt), le_refl _,
      fun h => absurd hlt (Nat.not_lt.mpr h), fun _ => ⟨by simp, rfl, by simp, rfl, ?_, ?_⟩⟩
    · simp only [List.length_append, List.length_replicate]
      omega
    · simp only [List.length_append, List.length_replicate]
      omega
  · exact ⟨bs, realloc_keep max_size bs n (Nat.not_lt.mp hlt), Nat.not_lt.mp hlt,
      fun _ => rfl, fun h => absurd h hlt⟩

/-- The amended C12 with `max_size = 2 ^ 63 - 1`, at a serializer over the buffer `[7, 8]`
(two free bytes) and the required size 5: three zero bytes are appended and the free
space is the last 5 bytes. -/
theorem realloc_leaves_required_free_space_within_max_size_witness :
    2 ^ 63 - 1 < 2 ^ 64
    ∧ (init [7, 8]).free_space_.size ≤ (init [7, 8]).buf_.length
    ∧ ((init [7, 8]).free_space_.size < 5 →
        (init [7, 8]).buf_.length + (5 - (init [7, 8]).free_space_.size) ≤ 2 ^ 63 - 1)
    ∧ (init [7, 8]).realloc (2 ^ 63 - 1) 5 = some ⟨[7, 8, 0, 0, 0], ⟨0, 5⟩⟩
    ∧ ∃ bs1 : binary_serializer,
        (init [7, 8]).realloc (2 ^ 63 - 1) 5 = some bs1
        ∧ 5 ≤ bs1.free_space_.size
        ∧ (5 ≤ (init [7, 8]).free_space_.size → bs1 = init [7, 8])
        ∧ ((init [7, 8]).free_space_.size < 5 →
            bs1.buf_.length = (init [7, 8]).buf_.length + (5 - (init [7, 8]).free_space_.size)
            ∧ bs1.buf_
                = (init [7, 8]).buf_ ++ List.replicate (5 - (init [7, 8]).free_space_.size) 0
            ∧ bs1.buf_.take (init [7, 8]).buf_.length = (init [7, 8]).buf_
            ∧ bs1.free_space_.size = 5
            ∧ bs1.free_space_.offset = bs1.buf_.length - 5
            ∧ bs1.free_space_.offset + bs1.free_space_.size = bs1.buf_.length) :=
  ⟨by decide, by decide, by decide, by decide,
    realloc_leaves_required_free_space_within_max_size (2 ^ 63 - 1) (init [7, 8]) 5
      (by decide) (by decide) (by decide)⟩

/-- C13, as stated, fails: the state with buffer `[7, 8]` and the empty free window at its
end satisfies the invariant, and for the required size `2 ^ 64 - 1` (a `size_t` value) the
sum `buf_.size() + missing` wraps to 1, so the `last(2 ^ 64 - 1)` slice taken in `realloc`
is outside the resized 1-byte buffer and `realloc` returns no state that satisfies the
invariant. -/
theorem realloc_huge_size_slice_out_of_bounds :
    (⟨[7, 8], ⟨2, 0⟩⟩ : binary_serializer).trailing
    ∧ 2 ^ 64 - 1 < 2 ^ 64
    ∧ (resize [7, 8] (([7, 8].length + (2 ^ 64 - 1 - 0)) % 2 ^ 64)).length = 1
    ∧ ¬ (2 ^ 64 - 1 ≤ (resize [7, 8] (([7, 8].length + (2 ^ 64 - 1 - 0)) % 2 ^ 64)).length)
    ∧ (byte_span.of_buffer
        (resize [7, 8] (([7, 8].length + (2 ^ 64 - 1 - 0)) % 2 ^ 64))).last (2 ^ 64 - 1) = none
    ∧ ¬ ∃ bs1 : binary_serializer,
        (⟨[7, 8], ⟨2, 0⟩⟩ : binary_serializer).realloc (2 ^ 63 - 1) (2 ^ 64 - 1) = some bs1
        ∧ bs1.trailing := by
  have h : (⟨[7, 8], ⟨2, 0⟩⟩ : binary_serializer).realloc (2 ^ 63 - 1) (2 ^ 64 - 1)
      = none := by decide
  refine ⟨by decide, by decide, by decide, by decide, by decide, ?_⟩
  rintro ⟨bs1, h1, -⟩
  rw [h] at h1
  exact Option.noConfusion h1

/-- C13, amended: the free space being a trailing window of the buffer is an invariant:
the constructor establishes it for every buffer, empty or not, with the whole buffer as
free space; from a state that satisfies it, for every required size `n` such that, when
the free space is smaller than `n`, the grown size does not exceed `max_size()` (itself
below `2 ^ 64`, so the sum does not wrap), `realloc` returns normally and the state it
returns satisfies the invariant again, with a free space no longer than the buffer; the
`last` slice taken when the buffer grows is within the resized buffer; and the number of
bytes before the free space is the same after `realloc` as before. -/
theorem free_space_trailing_window_within_max_size (max_size : Nat) (buf : byte_buffer)
    (bs : binary_serializer) (n : Nat) (hmax : max_size < 2 ^ 64) (h : bs.trailing)
    (hfit : bs.free_space_.size < n →
      bs.buf_.length + (n - bs.free_space_.size) ≤ max_size) :
    (init buf).trailing
    ∧ (init buf).free_space_ = ⟨0, buf.length⟩
    ∧ bs.free_space_.size ≤ bs.buf_.length
    ∧ ∃ bs1 : binary_serializer,
        bs.realloc max_size n = some bs1
        ∧ bs1.trailing
        ∧ bs1.free_space_.size ≤ bs1.buf_.length
        ∧ (bs.free_space_.size < n →
            n ≤ (resize bs.buf_
                  ((bs.buf_.length + (n - bs.free_space_.size)) % 2 ^ 64)).length
            ∧ (byte_span.of_buffer
                (resize bs.buf_
                  ((bs.buf_.length + (n - bs.free_space_.size)) % 2 ^ 64))).last n
              = some bs1.free_space_)
        ∧ bs1.buf_.length - bs1.free_space_.size = bs.buf_.length - bs.free_space_.size
        ∧ bs1.free_space_.offset = bs.free_space_.offset := by
  have hwf : bs.free_space_.size ≤ bs.buf_.length := by
    unfold trailing at h
    omega
  refine ⟨by simp [trailing, init, byte_span.of_buffer], rfl, hwf, ?_⟩
  by_cases hlt : bs.free_space_.size < n
  · have hmod : (bs.buf_.length + (n - bs.free_space_.size)) % 2 ^ 64
        = bs.buf_.length + (n - bs.free_space_.size) :=
      Nat.mod_eq_of_lt (lt_of_le_of_lt (hfit hlt) hmax)
    have hlen : (resize bs.buf_ (bs.buf_.length + (n - bs.free_space_.size))).length
        = bs.buf_.length + (n - bs.free_space_.size) := by
      simp [resize]
    refine ⟨_, realloc_grow max_size bs n hmax hlt hwf (hfit hlt), ?_, ?_,
      fun _ => ⟨?_, ?_⟩, ?_, ?_⟩
    · simp only [trailing, List.length_append, List.length_replicate]
      omega
    · simp only [List.length_append, List.length_replicate]
      omega
    · rw [hmod, hlen]
      omega
    · have h2 : n ≤ bs.buf_.length + (n - bs.free_space_.size) := by omega
      have h3 : bs.buf_.length + (n - bs.free_space_.size) - n
          = bs.buf_.length - bs.free_space_.size := by omega
      rw [hmod]
      simp [byte_span.last, byte_span.of_buffer, hlen, h2, h3]
    · simp only [List.length_append, List.length_replicate]
      omega
    · unfold trailing at h
      simp only
      omega
  · exact ⟨bs, realloc_keep max_size bs n (Nat.not_lt.mp hlt), h, hwf,
      fun hh => absurd hh hlt, rfl, rfl⟩

/-- The amended C13 with `max_size = 2 ^ 63 - 1`, at the state a serializer over
`[7, 8, 9]` is in after one byte was written (one byte before the free space, two bytes
free) and the required size 4. -/
theorem free_space_trailing_window_within_max_size_witness :
    2 ^ 63 - 1 < 2 ^ 64
    ∧ (⟨[1, 8, 9], ⟨1, 2⟩⟩ : binary_serializer).trailing
    ∧ ((⟨[1, 8, 9], ⟨1, 2⟩⟩ : binary_serializer).free_space_.size < 4 →
        (⟨[1, 8, 9], ⟨1, 2⟩⟩ : binary_serializer).buf_.length
          + (4 - (⟨[1, 8, 9], ⟨1, 2⟩⟩ : binary_serializer).free_space_.size) ≤ 2 ^ 63 - 1)
    ∧ (⟨[1, 8, 9], ⟨1, 2⟩⟩ : binary_serializer).realloc (2 ^ 63 - 1) 4
        = some ⟨[1, 8, 9, 0, 0], ⟨1, 4⟩⟩
    ∧ (init [7, 8, 9]).trailing
    ∧ (init [7, 8, 9]).free_space_ = ⟨0, [7, 8, 9].length⟩ :=
  have h := free_space_trailing_window_within_max_size (2 ^ 63 - 1) [7, 8, 9]
    ⟨[1, 8, 9], ⟨1, 2⟩⟩ 4 (by decide) (by decide) (by decide)
  ⟨by decide, by decide, by decide, by decide, h.1, h.2.1⟩

/-- C14: for every socket, flag word and value of `O_NONBLOCK`: when reading the flags
fails (`F_GETFL` gives `-1`), `nonblocking` returns `false` and makes no `F_SETFL` call;
otherwise it makes exactly one `F_SETFL` call, returns whether that call gave `0`, and the
word `w` it writes has every bit outside `O_NONBLOCK` as it was read and every bit of
`O_NONBLOCK` equal to `new_value`; computing the new word from `w` gives `w` again, so a
second call with the same `new_value` that reads `w` back writes `w` once more (`w` is
not the failure value `-1` when the word read and `O_NONBLOCK` are non-negative). -/
theorem nonblocking_changes_only_O_NONBLOCK (O_NONBLOCK : Int) (getfl : Int → Int)
    (setfl : Int → Int → Int) (hdl : net.socket) (new_value : Bool) :
    (getfl hdl.id = -1 →
        net.nonblocking O_NONBLOCK getfl setfl hdl new_value = (false, []))
    ∧ (getfl hdl.id ≠ -1 →
        ∃ w : Int,
          net.nonblocking O_NONBLOCK getfl setfl hdl new_value
            = (decide (setfl hdl.id w = 0), [(hdl.id, w)])
          ∧ (∀ i : Nat, Int.testBit O_NONBLOCK i = false →
              Int.testBit w i = Int.testBit (getfl hdl.id) i)
          ∧ (∀ i : Nat, Int.testBit O_NONBLOCK i = true → Int.testBit w i = new_value)
          ∧ net.nonblocking_flags O_NONBLOCK new_value w = w
          ∧ (0 ≤ getfl hdl.id → 0 ≤ O_NONBLOCK → 0 ≤ w)
          ∧ (w ≠ -1 →
              net.nonblocking O_NONBLOCK (fun _ => w) setfl hdl new_value
                = (decide (setfl hdl.id w = 0), [(hdl.id, w)]))) := by
  refine ⟨fun h => by simp [net.nonblocking, h], fun h => ?_⟩
  refine ⟨net.nonblocking_flags O_NONBLOCK new_value (getfl hdl.id), ?_, ?_, ?_,
    net.nonblocking_flags_idem _ _ _, net.nonblocking_flags_nonneg _ _ _, ?_⟩
  · simp [net.nonblocking, h]
  · intro i hi
    rw [net.testBit_nonblocking_flags, hi]
    simp
  · intro i hi
    rw [net.testBit_nonblocking_flags, hi]
    simp
  · intro hw
    simp [net.nonblocking, hw, net.nonblocking_flags_idem]

/-- The theorem of C14 with `O_NONBLOCK = 2048`: at a descriptor whose `F_GETFL` fails, and
at one whose flag word is 2 with `new_value = true`, where the word written is 2050. -/
theorem nonblocking_changes_only_O_NONBLOCK_witness :
    net.nonblocking 2048 (fun _ => -1) (fun _ _ => 0) ⟨3⟩ true = (false, [])
    ∧ (fun _ : Int => (2 : Int)) (3 : Int) ≠ -1
    ∧ net.nonblocking 2048 (fun _ => 2) (fun _ _ => 0) ⟨3⟩ true = (true, [(3, 2050)])
    ∧ ∃ w : Int,
        net.nonblocking 2048 (fun _ => 2) (fun _ _ => 0) ⟨3⟩ true
          = (decide ((fun _ _ => 0 : Int → Int → Int) 3 w = 0), [(3, w)])
        ∧ (∀ i : Nat, Int.testBit 2048 i = false → Int.testBit w i = Int.testBit 2 i)
        ∧ (∀ i : Nat, Int.testBit 2048 i = true → Int.testBit w i = true)
        ∧ net.nonblocking_flags 2048 true w = w
        ∧ (0 ≤ (fun _ : Int => (2 : Int)) (3 : Int) → (0 : Int) ≤ 2048 → 0 ≤ w)
        ∧ (w ≠ -1 →
            net.nonblocking 2048 (fun _ => w) (fun _ _ => 0) ⟨3⟩ true
              = (decide ((fun _ _ => 0 : Int → Int → Int) 3 w = 0), [(3, w)])) :=
  ⟨(nonblocking_changes_only_O_NONBLOCK 2048 (fun _ => -1) (fun _ _ => 0) ⟨3⟩ true).1 rfl,
    by decide, by decide,
    (nonblocking_changes_only_O_NONBLOCK 2048 (fun _ => 2) (fun _ _ => 0) ⟨3⟩ true).2
      (by decide)⟩

/-- C15: `num_socket_managers` returns the size of the manager map modulo `2 ^ 16`, a
number below `2 ^ 16` that differs from the size by a multiple of 65536; it is the number
of registered managers exactly when there are fewer than 65536 of them. -/
theorem num_socket_managers_mod_65536 (managers_ : net.manager_map) :
    net.multiplexer_impl.num_socket_managers managers_ = managers_.size % 2 ^ 16
    ∧ net.multiplexer_impl.num_socket_managers managers_ < 2 ^ 16
    ∧ managers_.size
        = 65536 * (managers_.size / 65536)
          + net.multiplexer_impl.num_socket_managers managers_
    ∧ (net.multiplexer_impl.num_socket_managers managers_ = managers_.size
        ↔ managers_.size < 65536) := by
  have hlt := Nat.mod_lt managers_.size (show 0 < 2 ^ 16 by norm_num)
  have hdiv := Nat.div_add_mod managers_.size (2 ^ 16)
  refine ⟨rfl, hlt, ?_, ?_⟩
  · unfold net.multiplexer_impl.num_socket_managers
    norm_num at hdiv ⊢
    omega
  · unfold net.multiplexer_impl.num_socket_managers
    constructor
    · intro h
      omega
    · intro h
      exact Nat.mod_eq_of_lt (by omega)
